import Mathlib

/-!
# Verification of the `bridengroom` xperf heap-log parser

Shallow embedding of `src/lib.rs`: the `parse` pipeline that turns the text
output of `xperf -i trace.etl` into a list of `(HeapAction, Stack)` pairs.

Rust conventions modelled here:
* panics (`assert!`, `.unwrap()`, `.expect()`, out-of-bounds indexing) and the
  final consistency check are all hard failures of the whole parse, modelled
  as `none` in an `Option` monad;
* `u64` values are `Nat` with an explicit `< 2 ^ 64` overflow check where the
  source performs checked parsing (`u64::from_str_radix`);
* strings are Lean `String`s; the byte-slice operations of `parse_hex` only
  ever distinguish "starts with the two ASCII characters `0x`" from anything
  else, which coincides with the character-level test used here.
-/

namespace Bridengroom

/-- One observed heap operation (`enum HeapAction` in the source). -/
inductive HeapAction : Type where
  | Create  (heap : Nat)
  | Destroy (heap : Nat)
  | Alloc   (heap address size : Nat)
  | Free    (heap address : Nat)
  | Realloc (heap new_address old_address new_size old_size : Nat)
deriving DecidableEq, Repr

/-- `struct Stack(pub Vec<String>)`: an ordered list of frame symbols. -/
abbrev Stack := List String

/-! ## String helpers mirroring the Rust standard library

The source uses `str::lines`, `str::split(",")`, `str::trim`,
`u64::from_str_radix` and `str::parse::<u64>`.  They are re-implemented
structurally so that every definition reduces in the kernel. -/

/-- Rust `char::is_whitespace` (the Unicode `White_Space` property), written
by codepoint. -/
def isRustWhitespace (c : Char) : Bool :=
  let n := c.toNat
  n = 0x20 || n = 0x09 || n = 0x0a || n = 0x0b || n = 0x0c || n = 0x0d ||
  n = 0x85 || n = 0xa0 || n = 0x1680 || (0x2000 ≤ n && n ≤ 0x200a) ||
  n = 0x2028 || n = 0x2029 || n = 0x202f || n = 0x205f || n = 0x3000

/-- Rust `str::trim` on a character list: drop whitespace at both ends. -/
def trimChars (cs : List Char) : List Char :=
  ((cs.dropWhile isRustWhitespace).reverse.dropWhile isRustWhitespace).reverse

/-- Rust `str::trim`. -/
def rustTrim (s : String) : String := String.mk (trimChars s.data)

/-- Rust `str::split(sep)` for a one-character separator: every occurrence of
the separator ends a field, and the empty string splits to `[""]`. -/
def splitOnChar (sep : Char) : List Char → List (List Char)
  | [] => [[]]
  | c :: rest =>
    if c = sep then [] :: splitOnChar sep rest
    else
      match splitOnChar sep rest with
      | [] => [[c]]
      | g :: gs => (c :: g) :: gs

/-- `line.split(",").map(|x| x.trim()).collect()` from the source. -/
def splitFields (line : String) : List String :=
  (splitOnChar ',' line.data).map (fun g => String.mk (trimChars g))

/-- Helper for Rust `str::lines`: `acc` is the reversed current line.  A line
terminated by `'\n'` has one trailing `'\r'` stripped; the final unterminated
line (if non-empty) is yielded verbatim and a trailing `'\n'` yields no empty
final line. -/
def linesAux (acc : List Char) : List Char → List (List Char)
  | [] => if acc.isEmpty then [] else [acc.reverse]
  | c :: rest =>
    if c = '\n' then
      (match acc with
       | '\r' :: acc2 => acc2.reverse
       | _ => acc.reverse) :: linesAux [] rest
    else linesAux (c :: acc) rest

/-- Rust `str::lines`. -/
def linesOf (s : String) : List String :=
  (linesAux [] s.data).map String.mk

/-- Rust `char::to_digit` without the radix bound: digit value of `0-9`,
`a-z`, `A-Z`. -/
def digitVal (c : Char) : Option Nat :=
  if '0' ≤ c ∧ c ≤ '9' then some (c.toNat - '0'.toNat)
  else if 'a' ≤ c ∧ c ≤ 'z' then some (c.toNat - 'a'.toNat + 10)
  else if 'A' ≤ c ∧ c ≤ 'Z' then some (c.toNat - 'A'.toNat + 10)
  else none

/-- The digit loop of `u64::from_str_radix`: each digit must have value below
`radix`, and the accumulator is checked against `u64` overflow at every step
(`checked_mul` / `checked_add`). -/
def parseDigits (radix : Nat) : List Char → Nat → Option Nat
  | [], acc => some acc
  | c :: rest, acc =>
    match digitVal c with
    | none => none
    | some d =>
      if d < radix then
        if acc * radix + d < 2 ^ 64 then parseDigits radix rest (acc * radix + d)
        else none
      else none

/-- `u64::from_str_radix(s, radix)`: an optional single leading `'+'` is
allowed (`'-'` is not, for an unsigned target), at least one digit is
required, and the value must fit in 64 bits. -/
def fromStrRadix (radix : Nat) (s : String) : Option Nat :=
  match s.data with
  | [] => none
  | ['+'] => none
  | '+' :: rest => parseDigits radix rest 0
  | cs => parseDigits radix cs 0

/-- `fn parse_hex`: assert the literal `"0x"` prefix (a shorter string makes
the byte slice `&string[..2]` panic), then `u64::from_str_radix(_, 16)` on
the remainder.  `none` models the panic of `assert!` / `.expect()`. -/
def parse_hex (s : String) : Option Nat :=
  if s.data.length < 2 then none
  else if s.data.take 2 = ['0', 'x'] then fromStrRadix 16 (String.mk (s.data.drop 2))
  else none

/-! ## The expected header formats (`const *_FORMAT` in the source). -/

def HEAPCREATE_FORMAT : List String :=
  ["HeapCreate", "TimeStamp", "Process Name ( PID)", "ThreadID", "HeapHandle",
   "Flags", "ReserveSize", "CommitSize", "AllocatedSize"]

def HEAPDESTROY_FORMAT : List String :=
  ["HeapDestroy", "TimeStamp", "Process Name ( PID)", "ThreadID", "HeapHandle"]

def HEAPALLOC_FORMAT : List String :=
  ["HeapAlloc", "TimeStamp", "Process Name ( PID)", "ThreadID", "HeapHandle",
   "Address", "Size", "Source"]

def HEAPFREE_FORMAT : List String :=
  ["HeapFree", "TimeStamp", "Process Name ( PID)", "ThreadID", "HeapHandle",
   "Address", "__Reserved", "Source"]

def HEAPREALLOC_FORMAT : List String :=
  ["HeapRealloc", "TimeStamp", "Process Name ( PID)", "ThreadID", "HeapHandle",
   "NewAddress", "OldAddress", "NewSize", "OldSize", "Source"]

def STACK_FORMAT : List String :=
  ["Stack", "TimeStamp", "ThreadID", "No.", "Address", "Image!Function"]

/-! ## Parser state and the per-line transition -/

/-- The mutable locals of `parse` gathered into one state record. -/
structure ParserState : Type where
  heapcreate_matches  : Bool
  heapdestroy_matches : Bool
  heapalloc_matches   : Bool
  heapfree_matches    : Bool
  heaprealloc_matches : Bool
  stack_matches       : Bool
  ready_to_parse      : Bool
  completed_stacks    : List Stack
  active_stack        : Stack
  activity            : List HeapAction
deriving DecidableEq, Repr

/-- The initial state of `parse`: no formats seen, everything empty. -/
def initState : ParserState :=
  { heapcreate_matches := false, heapdestroy_matches := false
    heapalloc_matches := false, heapfree_matches := false
    heaprealloc_matches := false, stack_matches := false
    ready_to_parse := false
    completed_stacks := [], active_stack := [], activity := [] }

/-- `parse_hex(columns[i])`: out-of-bounds indexing panics, then the hex
parse may panic. -/
def hexField (columns : List String) (i : Nat) : Option Nat :=
  match columns[i]? with
  | none => none
  | some f => parse_hex f

/-- `columns[i].parse::<u64>()`: decimal parse of a field. -/
def decField (columns : List String) (i : Nat) : Option Nat :=
  match columns[i]? with
  | none => none
  | some f => fromStrRadix 10 f

/-- The header phase of the per-line loop (`!ready_to_parse` branch):
recognise the six expected formats, and at the `EndHeader` sentinel assert
that all six were seen. -/
def headerStep (st : ParserState) (columns : List String) : Option ParserState :=
  if columns = HEAPALLOC_FORMAT then some { st with heapalloc_matches := true }
  else if columns = HEAPFREE_FORMAT then some { st with heapfree_matches := true }
  else if columns = HEAPREALLOC_FORMAT then some { st with heaprealloc_matches := true }
  else if columns = HEAPCREATE_FORMAT then some { st with heapcreate_matches := true }
  else if columns = HEAPDESTROY_FORMAT then some { st with heapdestroy_matches := true }
  else if columns = STACK_FORMAT then some { st with stack_matches := true }
  else if columns = ["EndHeader"] then
    if st.heapalloc_matches && st.heapfree_matches && st.heaprealloc_matches &&
       st.heapcreate_matches && st.heapdestroy_matches && st.stack_matches
    then some { st with ready_to_parse := true }
    else none
  else some st

/-- The body phase of the per-line loop (`ready_to_parse` branch): dispatch on
`columns[0]`, build events, feed `Stack` rows to the accumulator, and skip
every other tag. -/
def bodyStep (st : ParserState) (columns : List String) : Option ParserState :=
  match columns.head? with
  | none => some st
  | some tag =>
    if tag = "HeapCreate" then
      match hexField columns 4 with
      | some heap => some { st with activity := st.activity ++ [HeapAction.Create heap] }
      | none => none
    else if tag = "HeapDestroy" then
      match hexField columns 4 with
      | some heap => some { st with activity := st.activity ++ [HeapAction.Destroy heap] }
      | none => none
    else if tag = "HeapAlloc" then
      match hexField columns 4, hexField columns 5, hexField columns 6 with
      | some heap, some address, some size =>
        some { st with activity := st.activity ++ [HeapAction.Alloc heap address size] }
      | _, _, _ => none
    else if tag = "HeapFree" then
      match hexField columns 4, hexField columns 5 with
      | some heap, some address =>
        some { st with activity := st.activity ++ [HeapAction.Free heap address] }
      | _, _ => none
    else if tag = "HeapRealloc" then
      match hexField columns 4, hexField columns 5, hexField columns 6,
            hexField columns 7, hexField columns 8 with
      | some heap, some na, some oa, some ns, some os =>
        some { st with activity := st.activity ++ [HeapAction.Realloc heap na oa ns os] }
      | _, _, _, _, _ => none
    else if tag = "Stack" then
      match decField columns 3, hexField columns 4, columns[5]? with
      | some depth, some _, some symbol =>
        let st1 :=
          if depth = 1 then
            { st with
              completed_stacks := if st.active_stack.length > 0 then
                          st.completed_stacks ++ [st.active_stack]
                        else st.completed_stacks
              active_stack := [] }
          else st
        some { st1 with active_stack := st1.active_stack ++ [symbol] }
      | _, _, _ => none
    else some st

/-- One iteration of the `for line in contents.lines()` loop. -/
def processLine (st : ParserState) (line : String) : Option ParserState :=
  let columns := splitFields line
  if columns.length = 0 then some st
  else if st.ready_to_parse then bodyStep st columns
  else headerStep st columns

/-- Run the loop over a list of lines, starting from `initState`. -/
def foldParse (ls : List String) : Option ParserState :=
  ls.foldlM processLine initState

/-- The finalisation after the loop: a non-empty active stack is pushed onto
the completed-stacks list. -/
def finalStacks (st : ParserState) : List Stack :=
  if st.active_stack.length > 0 then st.completed_stacks ++ [st.active_stack]
  else st.completed_stacks

/-- `parse` from the line list on: the loop, the finalisation, the
`activity.len() == stacks.len()` assertion, and the positional `zip`. -/
def parseLines (ls : List String) : Option (List (HeapAction × Stack)) :=
  match foldParse ls with
  | none => none
  | some st =>
    if st.activity.length = (finalStacks st).length then
      some (st.activity.zip (finalStacks st))
    else none

/-- `pub fn parse` on already-decoded text contents. -/
def parse (contents : String) : Option (List (HeapAction × Stack)) :=
  parseLines (linesOf contents)

end Bridengroom

namespace Bridengroom

/-! ## Shared concrete inputs used by witnesses -/

/-- The six expected header lines, comma-separated as they appear in a log. -/
def headerSixLines : List String :=
  ["HeapCreate, TimeStamp, Process Name ( PID), ThreadID, HeapHandle, Flags, ReserveSize, CommitSize, AllocatedSize",
   "HeapDestroy, TimeStamp, Process Name ( PID), ThreadID, HeapHandle",
   "HeapAlloc, TimeStamp, Process Name ( PID), ThreadID, HeapHandle, Address, Size, Source",
   "HeapFree, TimeStamp, Process Name ( PID), ThreadID, HeapHandle, Address, __Reserved, Source",
   "HeapRealloc, TimeStamp, Process Name ( PID), ThreadID, HeapHandle, NewAddress, OldAddress, NewSize, OldSize, Source",
   "Stack, TimeStamp, ThreadID, No., Address, Image!Function"]

/-- The state right after a fully validated header: all six formats seen. -/
def readyState : ParserState :=
  { initState with
    heapcreate_matches := true, heapdestroy_matches := true
    heapalloc_matches := true, heapfree_matches := true
    heaprealloc_matches := true, stack_matches := true
    ready_to_parse := true }

/-! ## C1: positional pairing -/

/-- C1: whenever `parse` succeeds, the output has exactly as many pairs as
there are recognized events and as completed stacks, and the `i`-th pair is
the `i`-th event (in body encounter order) paired with the `i`-th completed
stack (in completion order) — no reordering, filtering or deduplication. -/
theorem parse_pairs_positional (ls : List String) (st : ParserState)
    (out : List (HeapAction × Stack))
    (hst : foldParse ls = some st) (hout : parseLines ls = some out) :
    out.length = st.activity.length ∧ out.length = (finalStacks st).length ∧
    ∀ i (h1 : i < st.activity.length) (h2 : i < (finalStacks st).length),
      out[i]? = some (st.activity.get ⟨i, h1⟩, (finalStacks st).get ⟨i, h2⟩) := by
  unfold parseLines at hout
  rw [hst] at hout
  dsimp only at hout
  by_cases hlen : st.activity.length = (finalStacks st).length
  · rw [if_pos hlen] at hout
    have hzip : out = st.activity.zip (finalStacks st) := (Option.some_inj.mp hout).symm
    subst hzip
    refine ⟨by simp [List.length_zip, hlen], by simp [List.length_zip, hlen], ?_⟩
    intro i h1 h2
    have hi : i < (st.activity.zip (finalStacks st)).length := by
      simp [List.length_zip]; omega
    rw [List.getElem?_eq_getElem hi]
    simp [List.getElem_zip, List.get_eq_getElem]
  · rw [if_neg hlen] at hout
    exact absurd hout (by simp)

/-- The end-to-end scenario of the spec, as a line list. -/
def c1Input : List String :=
  headerSixLines ++ ["EndHeader",
    "Stack, t0, 100, 1, 0x1000, moduleA!funcA",
    "Stack, t0, 100, 2, 0x1004, moduleA!funcB",
    "HeapAlloc, t0, proc (1), 100, 0x10, 0x2000, 0x40, source"]

/-- The parser state reached after `c1Input`. -/
def c1MidState : ParserState :=
  { readyState with
    active_stack := ["moduleA!funcA", "moduleA!funcB"]
    activity := [HeapAction.Alloc 16 8192 64] }

/-- The output of `parseLines c1Input`. -/
def c1Output : List (HeapAction × Stack) :=
  [(HeapAction.Alloc 16 8192 64, ["moduleA!funcA", "moduleA!funcB"])]

/-- Witness for C1 at the end-to-end scenario of the spec. -/
theorem parse_pairs_positional_witness :
    c1Output.length = c1MidState.activity.length ∧
    c1Output.length = (finalStacks c1MidState).length ∧
    ∀ i (h1 : i < c1MidState.activity.length)
      (h2 : i < (finalStacks c1MidState).length),
      c1Output[i]? =
        some (c1MidState.activity.get ⟨i, h1⟩, (finalStacks c1MidState).get ⟨i, h2⟩) :=
  parse_pairs_positional c1Input c1MidState c1Output (by decide) (by decide)

/-! ## C2: count mismatch aborts the parse -/

/-- C2: if, after consuming all lines and finalizing the active stack, the
number of recognized events differs from the number of completed stacks, the
whole parse fails and returns no output at all. -/
theorem count_mismatch_fails (ls : List String) (st : ParserState)
    (hst : foldParse ls = some st)
    (hne : st.activity.length ≠ (finalStacks st).length) :
    parseLines ls = none := by
  unfold parseLines
  rw [hst]
  dsimp only
  rw [if_neg hne]

/-- Witness for C2: a single `HeapAlloc` row with no `Stack` rows anywhere
fails the whole parse. -/
theorem count_mismatch_fails_witness :
    parseLines (headerSixLines ++ ["EndHeader",
      "HeapAlloc, t0, proc (1), 100, 0x10, 0x2000, 0x40, source"]) = none :=
  count_mismatch_fails _
    { readyState with activity := [HeapAction.Alloc 16 8192 64] }
    (by decide) (by decide)

/-! ## C7: unrecognized body rows are skipped silently -/

/-- C7: in the body, a line whose first trimmed field is none of the six
recognized tags (blank lines included) causes no failure and leaves the whole
state — event list, active stack and completed-stacks list — unchanged. -/
theorem unrecognized_tag_skipped (st : ParserState) (line : String)
    (hready : st.ready_to_parse = true)
    (htag : ∀ t ∈ (["HeapCreate", "HeapDestroy", "HeapAlloc", "HeapFree",
                    "HeapRealloc", "Stack"] : List String),
      (splitFields line).head? ≠ some t) :
    processLine st line = some st := by
  have h1 := htag "HeapCreate" (by simp)
  have h2 := htag "HeapDestroy" (by simp)
  have h3 := htag "HeapAlloc" (by simp)
  have h4 := htag "HeapFree" (by simp)
  have h5 := htag "HeapRealloc" (by simp)
  have h6 := htag "Stack" (by simp)
  unfold processLine bodyStep
  by_cases h0 : (splitFields line).length = 0
  · rw [if_pos h0]
  · rw [if_neg h0]
    cases hhd : (splitFields line).head? with
    | none => simp [hready, hhd]
    | some tag =>
      have t1 : tag ≠ "HeapCreate" := fun e => h1 (by rw [hhd, e])
      have t2 : tag ≠ "HeapDestroy" := fun e => h2 (by rw [hhd, e])
      have t3 : tag ≠ "HeapAlloc" := fun e => h3 (by rw [hhd, e])
      have t4 : tag ≠ "HeapFree" := fun e => h4 (by rw [hhd, e])
      have t5 : tag ≠ "HeapRealloc" := fun e => h5 (by rw [hhd, e])
      have t6 : tag ≠ "Stack" := fun e => h6 (by rw [hhd, e])
      simp [hready, hhd, t1, t2, t3, t4, t5, t6]

/-- Witness for C7: an unknown row kind, and a blank line, both leave the
state untouched. -/
theorem unrecognized_tag_skipped_witness :
    processLine readyState "FirstField, 1, 2" = some readyState :=
  unrecognized_tag_skipped readyState "FirstField, 1, 2" (by decide) (by decide)

/-! ## C4: the stack accumulator transition -/

/-- C4: on a `Stack` row, a depth of 1 seals the current non-empty active
stack onto the completed list (exactly once, in order) and starts the new
active stack with this row's symbol; any other depth just appends the symbol;
and at end of input a non-empty active stack becomes the final completed
entry. -/
theorem stack_accumulator_step (st : ParserState) (line : String)
    (c1 c2 c3 c4 c5 : String) (restc : List String) (depth addr : Nat)
    (hready : st.ready_to_parse = true)
    (hcols : splitFields line = "Stack" :: c1 :: c2 :: c3 :: c4 :: c5 :: restc)
    (hdepth : fromStrRadix 10 c3 = some depth)
    (haddr : parse_hex c4 = some addr) :
    processLine st line = some (
      if depth = 1 then
        { st with
          completed_stacks :=
            if st.active_stack.length > 0 then st.completed_stacks ++ [st.active_stack]
            else st.completed_stacks
          active_stack := [c5] }
      else { st with active_stack := st.active_stack ++ [c5] }) ∧
    (st.active_stack ≠ [] → finalStacks st = st.completed_stacks ++ [st.active_stack]) := by
  constructor
  · unfold processLine bodyStep
    rw [hcols]
    by_cases hd : depth = 1 <;>
      simp [decField, hexField, hdepth, haddr, hready, hd]
  · intro hne
    unfold finalStacks
    rw [if_pos (by simpa [List.length_pos] using hne)]

/-- Witness for C4: a depth-1 `Stack` row seals the active stack `["a"]` and
restarts with its own symbol; finalization would seal `["a"]` as well. -/
theorem stack_accumulator_step_witness :
    processLine { readyState with active_stack := ["a"] }
        "Stack, t0, 100, 1, 0x1000, sym" =
      some { readyState with completed_stacks := [["a"]], active_stack := ["sym"] } ∧
    finalStacks { readyState with active_stack := ["a"] } = [["a"]] := by
  have h := stack_accumulator_step { readyState with active_stack := ["a"] }
    "Stack, t0, 100, 1, 0x1000, sym" "t0" "100" "1" "0x1000" "sym" [] 1 4096
    (by decide) (by decide) (by decide) (by decide)
  exact ⟨by rw [h.1]; decide, by rw [h.2 (by decide)]; decide⟩

/-! ## C5: the hex-field contract

`u64::from_str_radix` accepts one optional leading `'+'` and rejects values
that overflow 64 bits, so the spec sentence "absence of the prefix or non-hex
digits is a hard parse failure" is not exactly what the code does.  The
following specification function states the amended contract in the spec's
own vocabulary, and `parse_hex_amended` proves the code refines it. -/

/-- `true` exactly on the base-16 digits `0-9`, `a-f`, `A-F`. -/
def isHexDigit (c : Char) : Bool :=
  match digitVal c with
  | some d => decide (d < 16)
  | none => false

/-- The numeric value of a hex digit (`0` on a non-digit). -/
def hexDigitValue (c : Char) : Nat := (digitVal c).getD 0

/-- The base-16 value of a digit string, accumulated left to right. -/
def hexFoldVal (acc : Nat) (ds : List Char) : Nat :=
  ds.foldl (fun a c => a * 16 + hexDigitValue c) acc

/-- Strip one optional leading `'+'` sign. -/
def dropLeadingPlusSign (ds : List Char) : List Char :=
  match ds with
  | [] => []
  | c :: rest => if c = '+' then rest else c :: rest

/-- The amended hex-field contract, written from the (corrected) spec words:
a `"0x"` prefix followed by an optional `'+'` and a non-empty run of base-16
digits whose value fits in 64 bits yields that value; everything else fails. -/
def parse_hex_spec (s : String) : Option Nat :=
  match s.data with
  | '0' :: 'x' :: rest =>
    let ds := dropLeadingPlusSign rest
    if ds ≠ [] ∧ (∀ c ∈ ds, isHexDigit c) ∧ hexFoldVal 0 ds < 2 ^ 64 then
      some (hexFoldVal 0 ds)
    else none
  | _ => none

/-- The accumulator of `hexFoldVal` never decreases. -/
lemma hexFoldVal_le (ds : List Char) (acc : Nat) : acc ≤ hexFoldVal acc ds := by
  induction ds generalizing acc with
  | nil => exact Nat.le_refl acc
  | cons c rest ih =>
    have h1 : acc ≤ acc * 16 + hexDigitValue c := by omega
    exact le_trans h1 (ih (acc * 16 + hexDigitValue c))

/-- Characterization of the checked base-16 digit loop. -/
lemma parseDigits16_eq (ds : List Char) (acc : Nat) (hacc : acc < 2 ^ 64) :
    parseDigits 16 ds acc =
      if (∀ c ∈ ds, isHexDigit c) ∧ hexFoldVal acc ds < 2 ^ 64 then
        some (hexFoldVal acc ds)
      else none := by
  induction ds generalizing acc with
  | nil =>
    simp only [parseDigits, hexFoldVal, List.foldl_nil, List.not_mem_nil,
      false_implies, implies_true, true_and, if_pos hacc]
  | cons c rest ih =>
    cases hdv : digitVal c with
    | none =>
      have hbad : isHexDigit c = false := by simp [isHexDigit, hdv]
      simp [parseDigits, hdv, hbad]
    | some d =>
      have hstep : hexFoldVal acc (c :: rest) = hexFoldVal (acc * 16 + d) rest := by
        simp [hexFoldVal, hexDigitValue, hdv]
      by_cases hdlt : d < 16
      · have hhex : isHexDigit c = true := by simp [isHexDigit, hdv, hdlt]
        by_cases hov : acc * 16 + d < 2 ^ 64
        · rw [show parseDigits 16 (c :: rest) acc = parseDigits 16 rest (acc * 16 + d) from
            by simp only [parseDigits, hdv]; rw [if_pos hdlt, if_pos hov]]
          rw [ih _ hov]
          simp [List.forall_mem_cons, hstep, hhex]
        · rw [show parseDigits 16 (c :: rest) acc = none from
            by simp only [parseDigits, hdv]; rw [if_pos hdlt, if_neg hov]]
          have hge : 2 ^ 64 ≤ hexFoldVal acc (c :: rest) := by
            rw [hstep]
            exact le_trans (by omega) (hexFoldVal_le rest (acc * 16 + d))
          rw [if_neg]
          rintro ⟨-, hlt⟩
          omega
      · have hbad : isHexDigit c = false := by simp [isHexDigit, hdv, hdlt]
        rw [show parseDigits 16 (c :: rest) acc = none from
          by simp only [parseDigits, hdv]; rw [if_neg hdlt]]
        simp [hbad]

/-- `u64::from_str_radix(_, 16)` against the spec-side contract. -/
lemma fromStrRadix16_eq (cs : List Char) :
    fromStrRadix 16 (String.mk cs) =
      (if dropLeadingPlusSign cs ≠ [] ∧
          (∀ c ∈ dropLeadingPlusSign cs, isHexDigit c) ∧
          hexFoldVal 0 (dropLeadingPlusSign cs) < 2 ^ 64 then
        some (hexFoldVal 0 (dropLeadingPlusSign cs))
      else none) := by
  cases cs with
  | nil => simp [fromStrRadix, dropLeadingPlusSign]
  | cons r rs =>
    by_cases hr : r = '+'
    · subst hr
      cases rs with
      | nil => simp [fromStrRadix, dropLeadingPlusSign]
      | cons q qs =>
        have hfr : fromStrRadix 16 (String.mk ('+' :: q :: qs)) =
            parseDigits 16 (q :: qs) 0 := rfl
        rw [hfr, parseDigits16_eq _ 0 (by norm_num)]
        simp [dropLeadingPlusSign]
    · have hfr : fromStrRadix 16 (String.mk (r :: rs)) = parseDigits 16 (r :: rs) 0 := by
        unfold fromStrRadix
        split
        · simp_all
        · simp_all
        · simp_all
        · rfl
      rw [hfr, parseDigits16_eq _ 0 (by norm_num)]
      simp [dropLeadingPlusSign, hr]

/-- C5 (amended): `parse_hex` returns the base-16 value of the remainder
exactly when the input is `"0x"`, an optional `'+'`, and a non-empty run of
hex digits whose value fits in 64 bits; in every other case (no `"0x"`
prefix, empty digit run, a non-digit character, or 64-bit overflow) it fails,
and the failure aborts the whole parse. -/
theorem parse_hex_amended (s : String) : parse_hex s = parse_hex_spec s := by
  unfold parse_hex_spec
  split
  · rename_i rest heq
    unfold parse_hex
    rw [heq]
    rw [if_neg (by simp), if_pos (by simp [List.take])]
    have hdrop : ('0' :: 'x' :: rest).drop 2 = rest := rfl
    rw [hdrop, fromStrRadix16_eq]
  · rename_i h
    unfold parse_hex
    cases hs : s.data with
    | nil => rw [if_pos (by simp)]
    | cons a as =>
      cases as with
      | nil => rw [if_pos (by simp)]
      | cons b bs =>
        rw [if_neg (by simp)]
        rw [if_neg ?hne]
        case hne =>
          intro htake
          simp only [List.take, List.cons.injEq, and_true] at htake
          exact h bs (by rw [hs, htake.1, htake.2])

/-- Counterexample to C5 as stated: `"0x+1a"` has a non-hex character after
the prefix, yet `parse_hex` succeeds with 26 — and a whole parse containing
that field succeeds; `"0x10000000000000000"` consists solely of hex digits
after the prefix, yet the parse of it fails (64-bit overflow). -/
theorem hex_claim_counterexample :
    parse_hex "0x+1a" = some 26 ∧ isHexDigit '+' = false ∧
    parse_hex "0x10000000000000000" = none ∧
    "10000000000000000".data.all isHexDigit = true ∧
    parseLines (headerSixLines ++ ["EndHeader",
      "Stack, t, tid, 1, 0x1000, sym", "HeapCreate, t, p, tid, 0x+1a"]) =
      some [(HeapAction.Create 26, ["sym"])] := by
  refine ⟨by decide, by decide, by decide, by decide, by decide⟩

/-! ## C10: the discarded Address field of Stack rows -/

/-- C10 (amended): field 4 of a `Stack` body row is parsed as a
`"0x"`-prefixed hex number whose value is then discarded (two rows differing
only in that field, both parseable, produce identical states); if the hex
parse of that field fails — missing `"0x"` prefix, or a remainder (after one
optional `'+'`) that is empty, contains a non-hex character, or overflows 64
bits — the whole parse aborts with no output. -/
theorem stack_address_field (pre post : List String) (line : String)
    (st : ParserState) (c1 c2 c3 c4 c5 : String) (restc : List String)
    (hpre : foldParse pre = some st)
    (hready : st.ready_to_parse = true)
    (hcols : splitFields line = "Stack" :: c1 :: c2 :: c3 :: c4 :: c5 :: restc)
    (hbad : parse_hex c4 = none) :
    parseLines (pre ++ line :: post) = none ∧
    ∀ (st2 : ParserState) (x y : String) (ax ay : Nat),
      parse_hex x = some ax → parse_hex y = some ay →
      bodyStep st2 ("Stack" :: c1 :: c2 :: c3 :: x :: c5 :: restc) =
        bodyStep st2 ("Stack" :: c1 :: c2 :: c3 :: y :: c5 :: restc) := by
  constructor
  · have hstep : processLine st line = none := by
      unfold processLine bodyStep
      rw [hcols]
      cases hdec : fromStrRadix 10 c3 with
      | none => simp [decField, hexField, hready, hbad, hdec]
      | some d => simp [decField, hexField, hready, hbad, hdec]
    have hfold : foldParse (pre ++ line :: post) = none := by
      unfold foldParse
      rw [List.foldlM_append]
      rw [show List.foldlM processLine initState pre = some st from hpre]
      simp [List.foldlM_cons, hstep]
    unfold parseLines
    rw [hfold]
  · intro st2 x y ax ay hx hy
    cases hdec : fromStrRadix 10 c3 with
    | none => simp [bodyStep, decField, hexField, hdec]
    | some d => simp [bodyStep, decField, hexField, hdec, hx, hy]

/-- Counterexample to C10 as stated: a `Stack` row whose Address field is
`"0x+0"` — its remainder contains the non-hex character `'+'` — does not
abort the parse; the whole parse succeeds. -/
theorem stack_address_claim_counterexample :
    isHexDigit '+' = false ∧
    parseLines (headerSixLines ++ ["EndHeader",
      "Stack, t, tid, 1, 0x+0, sym", "HeapAlloc, t, p, tid, 0x1, 0x2, 0x3, s"]) =
      some [(HeapAction.Alloc 1 2 3, ["sym"])] :=
  ⟨by decide, by decide⟩

/-- Witness for C10 (amended): a `Stack` row whose Address field `"1000"`
lacks the `"0x"` prefix kills the whole parse, and two Address fields that
both parse leave identical states. -/
theorem stack_address_field_witness :
    parseLines ((headerSixLines ++ ["EndHeader"]) ++
      "Stack, t, tid, 1, 1000, sym" :: []) = none ∧
    bodyStep readyState ("Stack" :: "t" :: "tid" :: "1" :: "0xa" :: "sym" :: []) =
      bodyStep readyState ("Stack" :: "t" :: "tid" :: "1" :: "0xb" :: "sym" :: []) := by
  have h := stack_address_field (headerSixLines ++ ["EndHeader"]) []
    "Stack, t, tid, 1, 1000, sym" readyState "t" "tid" "1" "1000" "sym" []
    (by decide) (by decide) (by decide) (by decide)
  exact ⟨h.1, h.2 readyState "0xa" "0xb" 10 11 (by decide) (by decide)⟩

/-! ## The header phase: C3 and C9 -/

/-- `splitOnChar` never returns the empty list of groups. -/
lemma splitOnChar_ne_nil (sep : Char) (cs : List Char) : splitOnChar sep cs ≠ [] := by
  cases cs with
  | nil => simp [splitOnChar]
  | cons c rest =>
    unfold splitOnChar
    by_cases h : c = sep
    · simp [h]
    · rw [if_neg h]
      cases hs : splitOnChar sep rest <;> simp

/-- Splitting a line always yields at least one (possibly empty) field. -/
lemma splitFields_ne_nil (line : String) : splitFields line ≠ [] := by
  unfold splitFields
  intro h
  exact splitOnChar_ne_nil ',' line.data (by simpa using h)

/-- Before the sentinel, processing a line is exactly the header step. -/
lemma processLine_header (st : ParserState) (line : String)
    (h0 : st.ready_to_parse = false) :
    processLine st line = headerStep st (splitFields line) := by
  unfold processLine
  rw [if_neg (by simpa [List.length_eq_zero] using splitFields_ne_nil line)]
  simp [h0]

/-- During the header phase, non-sentinel lines only toggle the six format
flags: each flag ends up ORed with whether its exact format line occurred. -/
lemma foldHeader (ls : List String) (st0 : ParserState)
    (h0 : st0.ready_to_parse = false)
    (hls : ∀ l ∈ ls, splitFields l ≠ ["EndHeader"]) :
    List.foldlM processLine st0 ls = some
      { st0 with
        heapcreate_matches := st0.heapcreate_matches ||
          ls.any (fun l => splitFields l = HEAPCREATE_FORMAT)
        heapdestroy_matches := st0.heapdestroy_matches ||
          ls.any (fun l => splitFields l = HEAPDESTROY_FORMAT)
        heapalloc_matches := st0.heapalloc_matches ||
          ls.any (fun l => splitFields l = HEAPALLOC_FORMAT)
        heapfree_matches := st0.heapfree_matches ||
          ls.any (fun l => splitFields l = HEAPFREE_FORMAT)
        heaprealloc_matches := st0.heaprealloc_matches ||
          ls.any (fun l => splitFields l = HEAPREALLOC_FORMAT)
        stack_matches := st0.stack_matches ||
          ls.any (fun l => splitFields l = STACK_FORMAT) } := by
  induction ls generalizing st0 with
  | nil => simp
  | cons l rest ih =>
    have hl := hls l (by simp)
    have hrest : ∀ x ∈ rest, splitFields x ≠ ["EndHeader"] :=
      fun x hx => hls x (by simp [hx])
    rw [List.foldlM_cons, processLine_header st0 l h0]
    by_cases e1 : splitFields l = HEAPALLOC_FORMAT
    · rw [show headerStep st0 (splitFields l) =
          some { st0 with heapalloc_matches := true } from by
        simp [headerStep, e1, HEAPALLOC_FORMAT, HEAPFREE_FORMAT, HEAPREALLOC_FORMAT, HEAPCREATE_FORMAT, HEAPDESTROY_FORMAT, STACK_FORMAT]]
      rw [show ((some { st0 with heapalloc_matches := true } : Option ParserState) >>=
          fun s => List.foldlM processLine s rest) =
          List.foldlM processLine { st0 with heapalloc_matches := true } rest from rfl]
      rw [ih { st0 with heapalloc_matches := true } h0 hrest]
      simp [e1, List.any_cons, HEAPALLOC_FORMAT, HEAPFREE_FORMAT, HEAPREALLOC_FORMAT, HEAPCREATE_FORMAT, HEAPDESTROY_FORMAT, STACK_FORMAT]
    · by_cases e2 : splitFields l = HEAPFREE_FORMAT
      · rw [show headerStep st0 (splitFields l) =
            some { st0 with heapfree_matches := true } from by
          simp [headerStep, e1, e2, HEAPALLOC_FORMAT, HEAPFREE_FORMAT, HEAPREALLOC_FORMAT, HEAPCREATE_FORMAT, HEAPDESTROY_FORMAT, STACK_FORMAT]]
        rw [show ((some { st0 with heapfree_matches := true } : Option ParserState) >>=
            fun s => List.foldlM processLine s rest) =
            List.foldlM processLine { st0 with heapfree_matches := true } rest from rfl]
        rw [ih { st0 with heapfree_matches := true } h0 hrest]
        simp [e1, e2, List.any_cons, HEAPALLOC_FORMAT, HEAPFREE_FORMAT, HEAPREALLOC_FORMAT, HEAPCREATE_FORMAT, HEAPDESTROY_FORMAT, STACK_FORMAT]
      · by_cases e3 : splitFields l = HEAPREALLOC_FORMAT
        · rw [show headerStep st0 (splitFields l) =
              some { st0 with heaprealloc_matches := true } from by
            simp [headerStep, e1, e2, e3, HEAPALLOC_FORMAT, HEAPFREE_FORMAT, HEAPREALLOC_FORMAT, HEAPCREATE_FORMAT, HEAPDESTROY_FORMAT, STACK_FORMAT]]
          rw [show ((some { st0 with heaprealloc_matches := true } : Option ParserState) >>=
              fun s => List.foldlM processLine s rest) =
              List.foldlM processLine { st0 with heaprealloc_matches := true } rest from rfl]
          rw [ih { st0 with heaprealloc_matches := true } h0 hrest]
          simp [e1, e2, e3, List.any_cons, HEAPALLOC_FORMAT, HEAPFREE_FORMAT, HEAPREALLOC_FORMAT, HEAPCREATE_FORMAT, HEAPDESTROY_FORMAT, STACK_FORMAT]
        · by_cases e4 : splitFields l = HEAPCREATE_FORMAT
          · rw [show headerStep st0 (splitFields l) =
                some { st0 with heapcreate_matches := true } from by
              simp [headerStep, e1, e2, e3, e4, HEAPALLOC_FORMAT, HEAPFREE_FORMAT, HEAPREALLOC_FORMAT, HEAPCREATE_FORMAT, HEAPDESTROY_FORMAT, STACK_FORMAT]]
            rw [show ((some { st0 with heapcreate_matches := true } : Option ParserState) >>=
                fun s => List.foldlM processLine s rest) =
                List.foldlM processLine { st0 with heapcreate_matches := true } rest from rfl]
            rw [ih { st0 with heapcreate_matches := true } h0 hrest]
            simp [e1, e2, e3, e4, List.any_cons, HEAPALLOC_FORMAT, HEAPFREE_FORMAT, HEAPREALLOC_FORMAT, HEAPCREATE_FORMAT, HEAPDESTROY_FORMAT, STACK_FORMAT]
          · by_cases e5 : splitFields l = HEAPDESTROY_FORMAT
            · rw [show headerStep st0 (splitFields l) =
                  some { st0 with heapdestroy_matches := true } from by
                simp [headerStep, e1, e2, e3, e4, e5, HEAPALLOC_FORMAT, HEAPFREE_FORMAT, HEAPREALLOC_FORMAT, HEAPCREATE_FORMAT, HEAPDESTROY_FORMAT, STACK_FORMAT]]
              rw [show ((some { st0 with heapdestroy_matches := true } : Option ParserState) >>=
                  fun s => List.foldlM processLine s rest) =
                  List.foldlM processLine { st0 with heapdestroy_matches := true } rest from rfl]
              rw [ih { st0 with heapdestroy_matches := true } h0 hrest]
              simp [e1, e2, e3, e4, e5, List.any_cons, HEAPALLOC_FORMAT, HEAPFREE_FORMAT, HEAPREALLOC_FORMAT, HEAPCREATE_FORMAT, HEAPDESTROY_FORMAT, STACK_FORMAT]
            · by_cases e6 : splitFields l = STACK_FORMAT
              · rw [show headerStep st0 (splitFields l) =
                    some { st0 with stack_matches := true } from by
                  simp [headerStep, e1, e2, e3, e4, e5, e6, HEAPALLOC_FORMAT, HEAPFREE_FORMAT, HEAPREALLOC_FORMAT, HEAPCREATE_FORMAT, HEAPDESTROY_FORMAT, STACK_FORMAT]]
                rw [show ((some { st0 with stack_matches := true } : Option ParserState) >>=
                    fun s => List.foldlM processLine s rest) =
                    List.foldlM processLine { st0 with stack_matches := true } rest from rfl]
                rw [ih { st0 with stack_matches := true } h0 hrest]
                simp [e1, e2, e3, e4, e5, e6, List.any_cons, HEAPALLOC_FORMAT, HEAPFREE_FORMAT, HEAPREALLOC_FORMAT, HEAPCREATE_FORMAT, HEAPDESTROY_FORMAT, STACK_FORMAT]
              · rw [show headerStep st0 (splitFields l) = some st0 from by
                  simp [headerStep, e1, e2, e3, e4, e5, e6, hl]]
                rw [show ((some st0 : Option ParserState) >>=
                    fun s => List.foldlM processLine s rest) =
                    List.foldlM processLine st0 rest from rfl]
                rw [ih st0 h0 hrest]
                simp [e1, e2, e3, e4, e5, e6, List.any_cons]

/-- Whether each of the six expected formats occurs among the given lines. -/
def allSixSeen (hs : List String) : Bool :=
  hs.any (fun l => splitFields l = HEAPCREATE_FORMAT) &&
  hs.any (fun l => splitFields l = HEAPDESTROY_FORMAT) &&
  hs.any (fun l => splitFields l = HEAPALLOC_FORMAT) &&
  hs.any (fun l => splitFields l = HEAPFREE_FORMAT) &&
  hs.any (fun l => splitFields l = HEAPREALLOC_FORMAT) &&
  hs.any (fun l => splitFields l = STACK_FORMAT)

/-- The sentinel line either validates the header or kills the parse,
depending on the six flags. -/
lemma headerStep_sentinel (st : ParserState) :
    headerStep st ["EndHeader"] =
      (if st.heapalloc_matches && st.heapfree_matches && st.heaprealloc_matches &&
          st.heapcreate_matches && st.heapdestroy_matches && st.stack_matches
       then some { st with ready_to_parse := true } else none) := by
  unfold headerStep
  rw [if_neg (by decide), if_neg (by decide), if_neg (by decide), if_neg (by decide),
      if_neg (by decide), if_neg (by decide), if_pos rfl]

/-- C3: reaching the `EndHeader` sentinel before all six expected header
formats have each appeared as an exactly matching line fails the parse at
the sentinel; if all six appeared — in any order, interleaved with ignored
header lines — parsing proceeds to the body with the header validated. -/
theorem schema_gate (hs : List String) (e : String) (rest : List String)
    (hhdr : ∀ l ∈ hs, splitFields l ≠ ["EndHeader"])
    (he : splitFields e = ["EndHeader"]) :
    (allSixSeen hs = true → foldParse (hs ++ [e]) = some readyState) ∧
    (allSixSeen hs = false → parseLines (hs ++ e :: rest) = none) := by
  have hfold := foldHeader hs initState rfl hhdr
  have hready : (some
      { initState with
        heapcreate_matches := initState.heapcreate_matches ||
          hs.any (fun l => splitFields l = HEAPCREATE_FORMAT)
        heapdestroy_matches := initState.heapdestroy_matches ||
          hs.any (fun l => splitFields l = HEAPDESTROY_FORMAT)
        heapalloc_matches := initState.heapalloc_matches ||
          hs.any (fun l => splitFields l = HEAPALLOC_FORMAT)
        heapfree_matches := initState.heapfree_matches ||
          hs.any (fun l => splitFields l = HEAPFREE_FORMAT)
        heaprealloc_matches := initState.heaprealloc_matches ||
          hs.any (fun l => splitFields l = HEAPREALLOC_FORMAT)
        stack_matches := initState.stack_matches ||
          hs.any (fun l => splitFields l = STACK_FORMAT) } : Option ParserState).isSome := rfl
  constructor
  · intro hall
    unfold foldParse
    rw [List.foldlM_append, hfold]
    rw [show ∀ (x : ParserState) (f : ParserState → Option ParserState),
        (some x >>= f) = f x from fun x f => rfl]
    rw [List.foldlM_cons, processLine_header _ e (by simp [initState]), he,
      headerStep_sentinel]
    have h6 : allSixSeen hs = true := hall
    unfold allSixSeen at h6
    simp only [Bool.and_eq_true] at h6
    obtain ⟨⟨⟨⟨⟨hc, hd2⟩, ha⟩, hf⟩, hr⟩, hst⟩ := h6
    rw [if_pos (by simp [initState, hc, hd2, ha, hf, hr, hst])]
    simp [initState, readyState, hc, hd2, ha, hf, hr, hst]
  · intro hnall
    unfold parseLines foldParse
    rw [List.foldlM_append, hfold]
    rw [show ∀ (x : ParserState) (f : ParserState → Option ParserState),
        (some x >>= f) = f x from fun x f => rfl]
    rw [List.foldlM_cons, processLine_header _ e (by simp [initState]), he,
      headerStep_sentinel]
    rw [if_neg ?hcond]
    case hcond =>
      intro hcond
      simp only [initState, Bool.false_or, Bool.and_eq_true] at hcond
      obtain ⟨⟨⟨⟨⟨ha, hf⟩, hr⟩, hc⟩, hd2⟩, hst⟩ := hcond
      rw [show allSixSeen hs = true from by
        unfold allSixSeen
        simp [ha, hf, hr, hc, hd2, hst]] at hnall
      exact absurd hnall (by simp)
    simp

/-- Witness for C3: the six expected header lines followed by `EndHeader`
validate the header; a bare `EndHeader` with no header lines kills the
parse. -/
theorem schema_gate_witness :
    foldParse (headerSixLines ++ ["EndHeader"]) = some readyState ∧
    parseLines ([] ++ "EndHeader" :: []) = none := by
  have h1 := schema_gate headerSixLines "EndHeader" [] (by decide) (by decide)
  have h2 := schema_gate [] "EndHeader" [] (by decide) (by decide)
  exact ⟨h1.1 (by decide), h2.2 (by decide)⟩

/-! ## C9: a file with no sentinel parses to the empty list -/

/-- C9: if no line of the input splits and trims to the single-field
sentinel row `["EndHeader"]`, the parse succeeds with an empty pair list —
no schema error is raised even with missing header kinds and body-style
data rows present. -/
theorem no_sentinel_empty (contents : String)
    (h : ∀ l ∈ linesOf contents, splitFields l ≠ ["EndHeader"]) :
    parse contents = some [] := by
  unfold parse parseLines foldParse
  rw [foldHeader (linesOf contents) initState rfl h]
  dsimp only
  simp [finalStacks, initState]

/-- Witness for C9: body-style rows but no `EndHeader` produce `some []`. -/
theorem no_sentinel_empty_witness :
    parse "HeapAlloc, 1, 2\nStack, t, tid, 1, 0x0, sym" = some [] :=
  no_sentinel_empty "HeapAlloc, 1, 2\nStack, t, tid, 1, 0x0, sym" (by decide)

/-! ## C6: no empty stack is ever recorded -/

/-- A body step either leaves the completed-stacks list unchanged or appends
the (non-empty) active stack to it. -/
lemma bodyStep_stacks_growth (st st' : ParserState) (cols : List String)
    (h : bodyStep st cols = some st') :
    st'.completed_stacks = st.completed_stacks ∨
      (st.active_stack ≠ [] ∧
       st'.completed_stacks = st.completed_stacks ++ [st.active_stack]) := by
  unfold bodyStep at h
  cases hhd : cols.head? with
  | none =>
    rw [hhd] at h
    obtain rfl := Option.some_inj.mp h
    exact Or.inl rfl
  | some tag =>
    rw [hhd] at h
    dsimp only at h
    by_cases t1 : tag = "HeapCreate"
    · rw [if_pos t1] at h
      split at h
      · obtain rfl := Option.some_inj.mp h
        exact Or.inl rfl
      · simp at h
    rw [if_neg t1] at h
    by_cases t2 : tag = "HeapDestroy"
    · rw [if_pos t2] at h
      split at h
      · obtain rfl := Option.some_inj.mp h
        exact Or.inl rfl
      · simp at h
    rw [if_neg t2] at h
    by_cases t3 : tag = "HeapAlloc"
    · rw [if_pos t3] at h
      split at h
      · obtain rfl := Option.some_inj.mp h
        exact Or.inl rfl
      · simp at h
    rw [if_neg t3] at h
    by_cases t4 : tag = "HeapFree"
    · rw [if_pos t4] at h
      split at h
      · obtain rfl := Option.some_inj.mp h
        exact Or.inl rfl
      · simp at h
    rw [if_neg t4] at h
    by_cases t5 : tag = "HeapRealloc"
    · rw [if_pos t5] at h
      split at h
      · obtain rfl := Option.some_inj.mp h
        exact Or.inl rfl
      · simp at h
    rw [if_neg t5] at h
    by_cases t6 : tag = "Stack"
    · rw [if_pos t6] at h
      split at h
      · rename_i dep v sym hdec hhex hsym
        obtain rfl := Option.some_inj.mp h
        by_cases hd : dep = 1
        · by_cases hlen : st.active_stack.length > 0
          · refine Or.inr ⟨by simpa [List.length_pos] using hlen, ?_⟩
            simp [hd, hlen]
          · refine Or.inl ?_
            simp [hd, hlen]
        · refine Or.inl ?_
          simp [hd]
      · simp at h
    rw [if_neg t6] at h
    obtain rfl := Option.some_inj.mp h
    exact Or.inl rfl

/-- Per-line version of `bodyStep_stacks_growth`: the header phase never
touches the completed-stacks list at all. -/
lemma processLine_stacks_growth (st st' : ParserState) (line : String)
    (h : processLine st line = some st') :
    st'.completed_stacks = st.completed_stacks ∨
      (st.active_stack ≠ [] ∧
       st'.completed_stacks = st.completed_stacks ++ [st.active_stack]) := by
  unfold processLine at h
  by_cases h0 : (splitFields line).length = 0
  · rw [if_pos h0] at h
    obtain rfl := Option.some_inj.mp h
    exact Or.inl rfl
  · rw [if_neg h0] at h
    by_cases hr : st.ready_to_parse = true
    · simp only [hr, if_true] at h
      exact bodyStep_stacks_growth st st' (splitFields line) h
    · simp only [Bool.not_eq_true] at hr
      simp only [hr, Bool.false_eq_true, if_false] at h
      unfold headerStep at h
      split at h
      · obtain rfl := Option.some_inj.mp h
        exact Or.inl rfl
      · split at h
        · obtain rfl := Option.some_inj.mp h
          exact Or.inl rfl
        · split at h
          · obtain rfl := Option.some_inj.mp h
            exact Or.inl rfl
          · split at h
            · obtain rfl := Option.some_inj.mp h
              exact Or.inl rfl
            · split at h
              · obtain rfl := Option.some_inj.mp h
                exact Or.inl rfl
              · split at h
                · obtain rfl := Option.some_inj.mp h
                  exact Or.inl rfl
                · split at h
                  · split at h
                    · obtain rfl := Option.some_inj.mp h
                      exact Or.inl rfl
                    · simp at h
                  · obtain rfl := Option.some_inj.mp h
                    exact Or.inl rfl

/-- Folding the line loop preserves "every completed stack is non-empty". -/
lemma foldlM_stacks_nonempty (ls : List String) (st0 st : ParserState)
    (h : List.foldlM processLine st0 ls = some st)
    (h0 : ∀ s ∈ st0.completed_stacks, s ≠ ([] : Stack)) :
    ∀ s ∈ st.completed_stacks, s ≠ ([] : Stack) := by
  induction ls generalizing st0 with
  | nil =>
    simp only [List.foldlM_nil] at h
    obtain rfl := Option.some_inj.mp h
    exact h0
  | cons l rest ih =>
    rw [List.foldlM_cons] at h
    cases hpl : processLine st0 l with
    | none => rw [hpl] at h; simp at h
    | some st1 =>
      rw [hpl] at h
      refine ih st1 h ?_
      intro s hs
      rcases processLine_stacks_growth st0 st1 l hpl with hgr | ⟨hne, hgr⟩
      · exact h0 s (hgr ▸ hs)
      · rw [hgr] at hs
        rcases List.mem_append.mp hs with h1 | h2
        · exact h0 s h1
        · rw [List.mem_singleton.mp h2]
          exact hne

/-- C6: no empty stack is ever recorded — every stack on the finalized
completed-stacks list, and hence the `Stack` component of every pair of a
successful result, contains at least one symbol. -/
theorem no_empty_stack_recorded (ls : List String) (st : ParserState)
    (out : List (HeapAction × Stack))
    (hst : foldParse ls = some st) (hout : parseLines ls = some out) :
    (∀ s ∈ finalStacks st, s ≠ ([] : Stack)) ∧
    ∀ p ∈ out, p.2 ≠ ([] : Stack) := by
  have hinv : ∀ s ∈ st.completed_stacks, s ≠ ([] : Stack) :=
    foldlM_stacks_nonempty ls initState st hst (by simp [initState])
  have hfin : ∀ s ∈ finalStacks st, s ≠ ([] : Stack) := by
    intro s hsmem
    unfold finalStacks at hsmem
    by_cases hact : st.active_stack.length > 0
    · rw [if_pos hact] at hsmem
      rcases List.mem_append.mp hsmem with h1 | h2
      · exact hinv s h1
      · rw [List.mem_singleton.mp h2]
        simpa [List.length_pos] using hact
    · rw [if_neg hact] at hsmem
      exact hinv s hsmem
  refine ⟨hfin, ?_⟩
  unfold parseLines at hout
  rw [hst] at hout
  dsimp only at hout
  by_cases hlen : st.activity.length = (finalStacks st).length
  · rw [if_pos hlen] at hout
    obtain rfl : out = st.activity.zip (finalStacks st) := (Option.some_inj.mp hout).symm
    rintro ⟨ev, stk⟩ hp
    exact hfin stk (List.of_mem_zip hp).2
  · rw [if_neg hlen] at hout
    simp at hout

/-- Witness for C6 at the end-to-end scenario. -/
theorem no_empty_stack_recorded_witness :
    (∀ s ∈ finalStacks c1MidState, s ≠ ([] : Stack)) ∧
    ∀ p ∈ c1Output, p.2 ≠ ([] : Stack) :=
  no_empty_stack_recorded c1Input c1MidState c1Output (by decide) (by decide)

/-! ## C8: lossy UTF-8 decoding never fails

The source reads raw bytes and decodes them with `String::from_utf8_lossy`,
which replaces every invalid sequence with U+FFFD instead of failing.  Both a
strict decoder (which fails on invalid input) and the lossy decoder are built
from the same single-scalar step, and the lossy one is proved total: it
agrees with the strict decoder on valid input and yields the replacement
character wherever the strict decoder would fail. -/

/-- A UTF-8 continuation byte (`0x80..=0xBF`). -/
def isContByte (b : Nat) : Bool := 0x80 ≤ b && b ≤ 0xbf

/-- The admissible range of the second byte of a multi-byte sequence, which
depends on the lead byte (excluding overlong forms, surrogates and
codepoints above U+10FFFF), as in the validation table of the Rust standard
library. -/
def utf8SecondByteOk (b0 b1 : Nat) : Bool :=
  if b0 = 0xe0 then 0xa0 ≤ b1 && b1 ≤ 0xbf
  else if b0 = 0xed then 0x80 ≤ b1 && b1 ≤ 0x9f
  else if b0 = 0xf0 then 0x90 ≤ b1 && b1 ≤ 0xbf
  else if b0 = 0xf4 then 0x80 ≤ b1 && b1 ≤ 0x8f
  else isContByte b1

/-- Decode one UTF-8 scalar from the front of a byte list.  Returns the
character and the remaining bytes; `none` on an invalid prefix. -/
def utf8DecodeChar? : List Nat → Option (Char × List Nat)
  | [] => none
  | b0 :: rest =>
    if b0 < 0x80 then some (Char.ofNat b0, rest)
    else if 0xc2 ≤ b0 && b0 ≤ 0xdf then
      match rest with
      | b1 :: rest1 =>
        if isContByte b1 then
          some (Char.ofNat ((b0 - 0xc0) * 0x40 + (b1 - 0x80)), rest1)
        else none
      | [] => none
    else if 0xe0 ≤ b0 && b0 ≤ 0xef then
      match rest with
      | b1 :: b2 :: rest2 =>
        if utf8SecondByteOk b0 b1 && isContByte b2 then
          some (Char.ofNat ((b0 - 0xe0) * 0x1000 + (b1 - 0x80) * 0x40 + (b2 - 0x80)),
            rest2)
        else none
      | _ => none
    else if 0xf0 ≤ b0 && b0 ≤ 0xf4 then
      match rest with
      | b1 :: b2 :: b3 :: rest3 =>
        if utf8SecondByteOk b0 b1 && isContByte b2 && isContByte b3 then
          some (Char.ofNat ((b0 - 0xf0) * 0x40000 + (b1 - 0x80) * 0x1000 +
            (b2 - 0x80) * 0x40 + (b3 - 0x80)), rest3)
        else none
      | _ => none
    else none

/-- The replacement character U+FFFD substituted for undecodable bytes. -/
def replacementChar : Char := Char.ofNat 0xfffd

/-- The lossy decoding loop: on an undecodable position, emit U+FFFD, skip
one byte and continue.  `fuel` bounds the recursion; at least one byte is
consumed per step, so `fuel = length` suffices. -/
def utf8LossyLoop : Nat → List Nat → List Char
  | _, [] => []
  | 0, _ :: _ => []
  | fuel + 1, b :: bs =>
    match utf8DecodeChar? (b :: bs) with
    | some (c, rest) => c :: utf8LossyLoop fuel rest
    | none => replacementChar :: utf8LossyLoop fuel bs

/-- The strict decoding loop: fails on the first undecodable position. -/
def utf8StrictLoop : Nat → List Nat → Option (List Char)
  | _, [] => some []
  | 0, _ :: _ => none
  | fuel + 1, b :: bs =>
    match utf8DecodeChar? (b :: bs) with
    | some (c, rest) => (utf8StrictLoop fuel rest).map (fun cs => c :: cs)
    | none => none

/-- `String::from_utf8_lossy`: total on every byte sequence. -/
def utf8Lossy (bs : List Nat) : List Char := utf8LossyLoop bs.length bs

/-- Strict UTF-8 decoding (`String::from_utf8`-like): may fail. -/
def utf8Decode? (bs : List Nat) : Option (List Char) := utf8StrictLoop bs.length bs

/-- `pub fn parse` from raw file bytes on: lossy decoding then parsing. -/
def parseBytes (bs : List Nat) : Option (List (HeapAction × Stack)) :=
  parse (String.mk (utf8Lossy bs))

/-- The single-scalar step consumes at least one byte. -/
lemma utf8DecodeChar?_length (b : Nat) (bs rest : List Nat) (c : Char)
    (h : utf8DecodeChar? (b :: bs) = some (c, rest)) : rest.length ≤ bs.length := by
  simp only [utf8DecodeChar?] at h
  split at h
  · simp only [Option.some.injEq, Prod.mk.injEq] at h
    obtain ⟨-, rfl⟩ := h
    exact Nat.le_refl _
  · split at h
    · split at h
      · split at h
        · simp only [Option.some.injEq, Prod.mk.injEq] at h
          obtain ⟨-, rfl⟩ := h
          simp
        · simp at h
      · simp at h
    · split at h
      · split at h
        · split at h
          · simp only [Option.some.injEq, Prod.mk.injEq] at h
            obtain ⟨-, rfl⟩ := h
            simp only [List.length_cons]
            omega
          · simp at h
        · simp at h
      · split at h
        · split at h
          · split at h
            · simp only [Option.some.injEq, Prod.mk.injEq] at h
              obtain ⟨-, rfl⟩ := h
              simp only [List.length_cons]
              omega
            · simp at h
          · simp at h
        · simp at h

/-- With enough fuel, the lossy loop agrees with the strict loop where the
latter succeeds, and contains the replacement character where it fails. -/
lemma utf8Loop_agree (fuel : Nat) : ∀ bs : List Nat, bs.length ≤ fuel →
    (∀ cs, utf8StrictLoop fuel bs = some cs → utf8LossyLoop fuel bs = cs) ∧
    (utf8StrictLoop fuel bs = none → replacementChar ∈ utf8LossyLoop fuel bs) := by
  induction fuel with
  | zero =>
    intro bs hlen
    obtain rfl : bs = [] := List.length_eq_zero.mp (Nat.le_zero.mp hlen)
    constructor
    · intro cs hcs
      rw [show utf8StrictLoop 0 [] = some [] from rfl] at hcs
      rw [show utf8LossyLoop 0 [] = [] from rfl]
      exact Option.some_inj.mp hcs
    · intro hn
      rw [show utf8StrictLoop 0 [] = some [] from rfl] at hn
      exact absurd hn (by simp)
  | succ fuel ih =>
    intro bs hlen
    cases bs with
    | nil =>
      constructor
      · intro cs hcs
        rw [show utf8StrictLoop (fuel + 1) [] = some [] from rfl] at hcs
        rw [show utf8LossyLoop (fuel + 1) [] = [] from rfl]
        exact Option.some_inj.mp hcs
      · intro hn
        rw [show utf8StrictLoop (fuel + 1) [] = some [] from rfl] at hn
        exact absurd hn (by simp)
    | cons b rest =>
      cases hdec : utf8DecodeChar? (b :: rest) with
      | some cr =>
        obtain ⟨c, rs⟩ := cr
        have hrs : rs.length ≤ rest.length := utf8DecodeChar?_length b rest rs c hdec
        have hrs2 : rs.length ≤ fuel := by
          simp only [List.length_cons] at hlen
          omega
        have hstrict : utf8StrictLoop (fuel + 1) (b :: rest) =
            (utf8StrictLoop fuel rs).map (fun cs => c :: cs) := by
          simp only [utf8StrictLoop, hdec]
        have hlossy : utf8LossyLoop (fuel + 1) (b :: rest) =
            c :: utf8LossyLoop fuel rs := by
          simp only [utf8LossyLoop, hdec]
        constructor
        · intro cs hcs
          rw [hstrict] at hcs
          cases hstr : utf8StrictLoop fuel rs with
          | none => rw [hstr] at hcs; simp at hcs
          | some cs2 =>
            rw [hstr] at hcs
            have hcs2 : c :: cs2 = cs := by simpa using hcs
            rw [hlossy, (ih rs hrs2).1 cs2 hstr]
            exact hcs2
        · intro hn
          rw [hstrict] at hn
          cases hstr : utf8StrictLoop fuel rs with
          | some cs2 => rw [hstr] at hn; simp at hn
          | none =>
            rw [hlossy]
            exact List.mem_cons_of_mem _ ((ih rs hrs2).2 hstr)
      | none =>
        have hstrict : utf8StrictLoop (fuel + 1) (b :: rest) = none := by
          simp only [utf8StrictLoop, hdec]
        have hlossy : utf8LossyLoop (fuel + 1) (b :: rest) =
            replacementChar :: utf8LossyLoop fuel rest := by
          simp only [utf8LossyLoop, hdec]
        constructor
        · intro cs hcs
          rw [hstrict] at hcs
          exact absurd hcs (by simp)
        · intro hn
          rw [hlossy]
          exact List.mem_cons_self _ _

/-- C8: the decoding step of the pipeline never fails: on every byte
sequence the lossy decoder produces text, equal to the strict decoding when
the bytes are valid UTF-8, and containing the replacement character U+FFFD
when they are not — so `parseBytes` never fails because of invalid
encoding. -/
theorem utf8_decoding_total (bs : List Nat) :
    (∀ cs, utf8Decode? bs = some cs → utf8Lossy bs = cs) ∧
    (utf8Decode? bs = none → replacementChar ∈ utf8Lossy bs) :=
  utf8Loop_agree bs.length bs (Nat.le_refl _)

/-- Witness for C8: an invalid byte `0xff` yields the replacement character;
a valid sequence decodes faithfully. -/
theorem utf8_decoding_total_witness :
    (utf8Decode? [0x48, 0xff, 0x69] = none ∧
      replacementChar ∈ utf8Lossy [0x48, 0xff, 0x69]) ∧
    (utf8Decode? [0x48, 0xc3, 0xa9] = some ['H', 'é'] ∧
      utf8Lossy [0x48, 0xc3, 0xa9] = ['H', 'é']) :=
  ⟨⟨by decide, (utf8_decoding_total [0x48, 0xff, 0x69]).2 (by decide)⟩,
   ⟨by decide, (utf8_decoding_total [0x48, 0xc3, 0xa9]).1 ['H', 'é'] (by decide)⟩⟩

end Bridengroom
